import Mathlib

/-!
Verification of the expense-store operations of `main.py`.

The store is a SQLite table `expenses(id AUTOINCREMENT, date TEXT NOT NULL,
amount REAL NOT NULL, category TEXT NOT NULL, subcategory TEXT DEFAULT '',
note TEXT DEFAULT '')`, accessed by five Python tool functions:
`add_expense`, `list_expenses`, `edit_expense`, `delete_expense`, `summarize`.

The table is modelled as a list of rows in insertion order together with the
next AUTOINCREMENT id.  Each operation takes an extra `err : Option String`
argument modelling the `except Exception` branch: `some m` means the
underlying storage layer raised an exception with message `m`, in which case
the Python code returns `{"status": "error", "message": ...}` and the
transaction is not committed; `none` is the normal path.  SQL TEXT comparison
under the default BINARY collation coincides with Lean's `String` order
(UTF-8 byte order equals code-point order), amounts (SQL REAL) are modelled
as exact rationals.
-/

namespace ExpenseTracker

/-- One row of the `expenses` table. -/
structure ExpenseRecord where
  id : Nat
  date : String
  amount : Rat
  category : String
  subcategory : String
  note : String
deriving Repr, DecidableEq

/-- The persistent state: the table rows in insertion order, and the next
AUTOINCREMENT id (SQLite AUTOINCREMENT never reuses an id, even after
DELETE). -/
structure Store where
  rows : List ExpenseRecord
  nextId : Nat
deriving Repr, DecidableEq

/-- The fresh database created by `init_db`: empty table, first id is 1. -/
def initStore : Store := { rows := [], nextId := 1 }

/-- The response envelope a tool returns: exactly the shapes produced by the
Python functions. -/
inductive Response where
  | okId (id : Nat) (message : String)
  | rows (records : List ExpenseRecord)
  | okRows (rows_affected : Nat)
  | noChanges
  | summary (entries : List (String × Rat))
  | error (message : String)
deriving Repr, DecidableEq

/-- The value of the `"status"` field of a response, when the response dict
has one (`list_expenses` and `summarize` return a bare list of row dicts on
success, which has no status field). -/
def statusOf : Response → Option String
  | .okId _ _ => some "ok"
  | .rows _ => none
  | .okRows _ => some "ok"
  | .noChanges => some "no changes"
  | .summary _ => none
  | .error _ => some "error"

/-- Whether a response is the structured failure shape
`{"status": "error", "message": ...}`. -/
def isError : Response → Bool
  | .error _ => true
  | _ => false

/-- The SQL predicate `date BETWEEN start_date AND end_date` (inclusive,
lexicographic on TEXT). -/
def inRange (start_date end_date d : String) : Bool :=
  decide (start_date ≤ d) && decide (d ≤ end_date)

/-- The SQL predicate `date = ? AND subcategory = ?` used by
`edit_expense` and `delete_expense`. -/
def matchKey (date subcategory : String) (r : ExpenseRecord) : Bool :=
  decide (r.date = date) && decide (r.subcategory = subcategory)

/-- The `ORDER BY id ASC` relation. -/
def idLe (a b : ExpenseRecord) : Prop := a.id ≤ b.id

instance : DecidableRel idLe := fun a b => Nat.decLe a.id b.id

/-- `add_expense`: INSERT one row with all five columns given (Python
defaults `subcategory = ""`, `note = ""` stand for omitted arguments), commit,
and answer with the cursor's lastrowid. -/
def add_expense (err : Option String) (s : Store) (date : String) (amount : Rat)
    (category : String) (subcategory : String) (note : String) : Store × Response :=
  match err with
  | some m => (s, .error m)
  | none =>
      ({ rows := s.rows ++ [{ id := s.nextId, date := date, amount := amount,
                              category := category, subcategory := subcategory, note := note }],
         nextId := s.nextId + 1 },
       .okId s.nextId "Expense added successfully")

/-- The rows satisfying `date BETWEEN start_date AND end_date`, in table
order. -/
def rangeRows (s : Store) (start_date end_date : String) : List ExpenseRecord :=
  s.rows.filter (fun r => inRange start_date end_date r.date)

/-- The result set of `list_expenses`: the rows in the date range,
`ORDER BY id ASC`. -/
def listedRows (s : Store) (start_date end_date : String) : List ExpenseRecord :=
  (rangeRows s start_date end_date).insertionSort idLe

/-- `list_expenses`: SELECT every column of the rows with
`date BETWEEN ? AND ?`, `ORDER BY id ASC`. -/
def list_expenses (err : Option String) (s : Store) (start_date end_date : String) :
    Store × Response :=
  match err with
  | some m => (s, .error ("Error listing expenses: " ++ m))
  | none => (s, .rows (listedRows s start_date end_date))

/-- `edit_expense`: UPDATE, SETting exactly the columns whose Python argument
is not None (note the `is not None` tests: an explicitly supplied empty
string is still written), on `WHERE date = ? AND subcategory = ?`; with no
field supplied the function returns `{"status": "no changes"}` before
touching the database.  `cur.rowcount` of an UPDATE counts the matched
rows. -/
def edit_expense (err : Option String) (s : Store) (subcategory date : String)
    (amount : Option Rat) (category : Option String) (note : Option String) :
    Store × Response :=
  match err with
  | some m => (s, .error m)
  | none =>
      if amount.isNone && category.isNone && note.isNone then
        (s, .noChanges)
      else
        ({ s with rows := s.rows.map (fun r =>
            if matchKey date subcategory r then
              { r with amount := amount.getD r.amount,
                       category := category.getD r.category,
                       note := note.getD r.note }
            else r) },
         .okRows ((s.rows.filter (fun r => matchKey date subcategory r)).length))

/-- `delete_expense`: DELETE FROM expenses WHERE date = ? AND subcategory = ?;
`cur.rowcount` is the number of deleted rows. -/
def delete_expense (err : Option String) (s : Store) (date subcategory : String) :
    Store × Response :=
  match err with
  | some m => (s, .error m)
  | none =>
      ({ s with rows := s.rows.filter (fun r => !(matchKey date subcategory r)) },
       .okRows ((s.rows.filter (fun r => matchKey date subcategory r)).length))

/-- Restriction of a row list to one category (`AND category = ?` /
`GROUP BY` bucket). -/
def catFilter (c : String) (rs : List ExpenseRecord) : List ExpenseRecord :=
  rs.filter (fun r => decide (r.category = c))

/-- `SUM(amount)` over a list of rows, as an exact rational. -/
def amountSum (rs : List ExpenseRecord) : Rat :=
  (rs.map (fun r => r.amount)).sum

/-- Insert a category into a strictly-sorted duplicate-free list of
categories, keeping it strictly sorted and duplicate-free. -/
def insertCat (c : String) : List String → List String
  | [] => [c]
  | x :: xs =>
      if c = x then x :: xs
      else if c < x then c :: x :: xs
      else x :: insertCat c xs

/-- The distinct categories of a list, in ascending lexicographic order:
the effect of `GROUP BY category ORDER BY category ASC`. -/
def sortedCats : List String → List String
  | [] => []
  | x :: xs => insertCat x (sortedCats xs)

/-- The category restriction `summarize` applies on top of the date range:
the SQL text gets `AND category = ?` appended only when the Python argument
is truthy (`if category:`) — a supplied empty string is falsy in Python and
imposes no restriction, exactly like an absent argument. -/
def truthyCatFilter (category : Option String) (rs : List ExpenseRecord) :
    List ExpenseRecord :=
  match category with
  | some c => if c = "" then rs else catFilter c rs
  | none => rs

/-- The rows `summarize` aggregates over. -/
def summarizeMatched (s : Store) (start_date end_date : String)
    (category : Option String) : List ExpenseRecord :=
  truthyCatFilter category (rangeRows s start_date end_date)

/-- The result set of `summarize`: one `(category, SUM(amount))` pair per
distinct category among the aggregated rows, in ascending category order
(`GROUP BY category ORDER BY category ASC`). -/
def summaryEntries (s : Store) (start_date end_date : String)
    (category : Option String) : List (String × Rat) :=
  let matched := summarizeMatched s start_date end_date category
  (sortedCats (matched.map (fun r => r.category))).map
    (fun c => (c, amountSum (catFilter c matched)))

/-- `summarize`: SELECT category, SUM(amount) ... WHERE date BETWEEN ? AND ?
[AND category = ? when the argument is truthy] GROUP BY category
ORDER BY category ASC. -/
def summarize (err : Option String) (s : Store) (start_date end_date : String)
    (category : Option String) : Store × Response :=
  match err with
  | some m => (s, .error ("Error summarizing expenses: " ++ m))
  | none => (s, .summary (summaryEntries s start_date end_date category))

/-- One call to a tool, with its `err` failure input; used to describe the
states reachable from a fresh database. -/
inductive Op where
  | add (err : Option String) (date : String) (amount : Rat)
      (category subcategory note : String)
  | list (err : Option String) (start_date end_date : String)
  | edit (err : Option String) (subcategory date : String)
      (amount : Option Rat) (category note : Option String)
  | del (err : Option String) (date subcategory : String)
  | summ (err : Option String) (start_date end_date : String) (category : Option String)

/-- The store after one tool call. -/
def applyOp (s : Store) : Op → Store
  | .add err date amount category subcategory note =>
      (add_expense err s date amount category subcategory note).1
  | .list err a b => (list_expenses err s a b).1
  | .edit err sub d a c n => (edit_expense err s sub d a c n).1
  | .del err d sub => (delete_expense err s d sub).1
  | .summ err a b c => (summarize err s a b c).1

/-- The store reached from the fresh database by a sequence of tool calls. -/
def runOps (ops : List Op) : Store := ops.foldl applyOp initStore

/-- The invariant of §3 of the spec: ids strictly increase along the table
(in particular they are unique), and every id already assigned is below the
next AUTOINCREMENT value. -/
def GoodStore (s : Store) : Prop :=
  ((s.rows.map (fun r => r.id)).Pairwise (fun i j => i < j)) ∧
  ∀ r ∈ s.rows, r.id < s.nextId

/-- The "food" record of the two-record store below. -/
def cexFood : ExpenseRecord :=
  { id := 1, date := "2024-01-01", amount := 3, category := "food",
    subcategory := "", note := "" }

/-- The "transport" record of the two-record store below. -/
def cexTransport : ExpenseRecord :=
  { id := 2, date := "2024-01-02", amount := 5, category := "transport",
    subcategory := "", note := "" }

/-- A reachable two-record store (one "food" and one "transport" record,
both inside January 2024) used to exhibit the `summarize` behaviour on an
explicitly supplied empty-string category. -/
def twoCatStore : Store :=
  runOps [Op.add none "2024-01-01" 3 "food" "" "",
          Op.add none "2024-01-02" 5 "transport" "" ""]

/-! ### Basic lemmas about the query helpers -/

instance : IsTotal ExpenseRecord idLe := ⟨fun a b => Nat.le_total a.id b.id⟩

instance : IsTrans ExpenseRecord idLe := ⟨fun _ _ _ hab hbc => Nat.le_trans hab hbc⟩

theorem listedRows_perm (s : Store) (a b : String) :
    (listedRows s a b).Perm (rangeRows s a b) :=
  List.perm_insertionSort idLe (rangeRows s a b)

theorem listedRows_pairwise (s : Store) (a b : String) :
    (listedRows s a b).Pairwise idLe :=
  List.sorted_insertionSort idLe (rangeRows s a b)

theorem mem_rangeRows {s : Store} {a b : String} {r : ExpenseRecord} :
    r ∈ rangeRows s a b ↔ r ∈ s.rows ∧ a ≤ r.date ∧ r.date ≤ b := by
  simp [rangeRows, List.mem_filter, inRange, and_assoc]

theorem mem_listedRows {s : Store} {a b : String} {r : ExpenseRecord} :
    r ∈ listedRows s a b ↔ r ∈ s.rows ∧ a ≤ r.date ∧ r.date ≤ b := by
  rw [List.Perm.mem_iff (listedRows_perm s a b)]
  exact mem_rangeRows

theorem amountSum_nil : amountSum [] = 0 := rfl

theorem amountSum_cons (r : ExpenseRecord) (rs : List ExpenseRecord) :
    amountSum (r :: rs) = r.amount + amountSum rs := by
  simp [amountSum]

theorem amountSum_perm {l₁ l₂ : List ExpenseRecord} (h : l₁.Perm l₂) :
    amountSum l₁ = amountSum l₂ :=
  List.Perm.sum_eq (h.map (fun r => r.amount))

theorem amountSum_filter_add (p : ExpenseRecord → Bool) (rs : List ExpenseRecord) :
    amountSum (rs.filter p) + amountSum (rs.filter (fun r => !(p r))) = amountSum rs := by
  induction rs with
  | nil => simp [amountSum]
  | cons r rs ih =>
      cases hp : p r with
      | true =>
          have h1 : List.filter p (r :: rs) = r :: List.filter p rs := by
            simp [List.filter_cons, hp]
          have h2 : List.filter (fun x => !(p x)) (r :: rs) = List.filter (fun x => !(p x)) rs := by
            simp [List.filter_cons, hp]
          rw [h1, h2, amountSum_cons, amountSum_cons, add_assoc, ih]
      | false =>
          have h1 : List.filter p (r :: rs) = List.filter p rs := by
            simp [List.filter_cons, hp]
          have h2 : List.filter (fun x => !(p x)) (r :: rs)
              = r :: List.filter (fun x => !(p x)) rs := by
            simp [List.filter_cons, hp]
          rw [h1, h2, amountSum_cons, amountSum_cons, add_left_comm, ih]

theorem mem_catFilter {c : String} {rs : List ExpenseRecord} {r : ExpenseRecord} :
    r ∈ catFilter c rs ↔ r ∈ rs ∧ r.category = c := by
  simp [catFilter, List.mem_filter]

theorem catFilter_perm {c : String} {l₁ l₂ : List ExpenseRecord} (h : l₁.Perm l₂) :
    (catFilter c l₁).Perm (catFilter c l₂) :=
  List.Perm.filter _ h

theorem catFilter_catFilter (c : String) (rs : List ExpenseRecord) :
    catFilter c (catFilter c rs) = catFilter c rs := by
  simp [catFilter, List.filter_filter]

theorem catFilter_filter_ne {c cc : String} (h : cc ≠ c) (rs : List ExpenseRecord) :
    catFilter cc (rs.filter (fun r => !(decide (r.category = c)))) = catFilter cc rs := by
  have hfun : (fun r : ExpenseRecord => decide (r.category = cc) && !(decide (r.category = c)))
      = (fun r : ExpenseRecord => decide (r.category = cc)) := by
    funext r
    by_cases hr : r.category = cc
    · simp [hr, h]
    · simp [hr]
  rw [catFilter, List.filter_filter, hfun, catFilter]

/-! ### Lemmas about the sorted duplicate-free category list -/

theorem mem_insertCat {x c : String} {l : List String} :
    x ∈ insertCat c l ↔ x = c ∨ x ∈ l := by
  induction l with
  | nil => simp [insertCat]
  | cons y ys ih =>
      by_cases h1 : c = y
      · subst h1
        simp [insertCat]
        try tauto
      · by_cases h2 : c < y
        · simp [insertCat, h1, h2, List.mem_cons]
          try tauto
        · simp [insertCat, h1, h2, List.mem_cons, ih]
          try tauto

theorem pairwise_insertCat {c : String} {l : List String}
    (h : l.Pairwise (fun x y => x < y)) :
    (insertCat c l).Pairwise (fun x y => x < y) := by
  induction l with
  | nil => simp [insertCat]
  | cons y ys ih =>
      rcases List.pairwise_cons.mp h with ⟨hy, hys⟩
      by_cases h1 : c = y
      · subst h1
        simpa [insertCat] using h
      · by_cases h2 : c < y
        · simp only [insertCat, if_neg h1, if_pos h2]
          refine List.pairwise_cons.mpr ⟨?_, h⟩
          intro z hz
          rcases List.mem_cons.mp hz with rfl | hzys
          · exact h2
          · exact lt_trans h2 (hy z hzys)
        · simp only [insertCat, if_neg h1, if_neg h2]
          refine List.pairwise_cons.mpr ⟨?_, ih hys⟩
          intro z hz
          rcases mem_insertCat.mp hz with rfl | hzys
          · rcases lt_trichotomy z y with hlt | heq | hgt
            · exact absurd hlt h2
            · exact absurd heq h1
            · exact hgt
          · exact hy z hzys

theorem pairwise_sortedCats (l : List String) :
    (sortedCats l).Pairwise (fun x y => x < y) := by
  induction l with
  | nil => simp [sortedCats]
  | cons x xs ih => exact pairwise_insertCat ih

theorem mem_sortedCats {x : String} {l : List String} :
    x ∈ sortedCats l ↔ x ∈ l := by
  induction l with
  | nil => simp [sortedCats]
  | cons y ys ih => simp [sortedCats, mem_insertCat, ih]

theorem nodup_sortedCats (l : List String) : (sortedCats l).Nodup :=
  (pairwise_sortedCats l).imp ne_of_lt

theorem nodup_const_length_le_one {l : List String} (hnd : l.Nodup) (c : String)
    (h : ∀ x ∈ l, x = c) : l.length ≤ 1 := by
  cases l with
  | nil => simp
  | cons x t =>
      cases t with
      | nil => simp
      | cons y t2 =>
          exfalso
          rcases List.nodup_cons.mp hnd with ⟨hx, _⟩
          have hxc := h x (List.mem_cons_self x (y :: t2))
          have hyc := h y (List.mem_cons_of_mem x (List.mem_cons_self y t2))
          apply hx
          rw [hxc, hyc]
          exact List.mem_cons_self c t2

/-- Grouping partitions the total: summing the per-category sums over a
duplicate-free list of categories covering every row gives the total sum. -/
theorem sum_over_cats (cats : List String) :
    ∀ rs : List ExpenseRecord, cats.Nodup → (∀ r ∈ rs, r.category ∈ cats) →
      (cats.map (fun c => amountSum (catFilter c rs))).sum = amountSum rs := by
  induction cats with
  | nil =>
      intro rs _ hcov
      have hrs : rs = [] := by
        rw [List.eq_nil_iff_forall_not_mem]
        intro r hr
        exact absurd (hcov r hr) (List.not_mem_nil _)
      subst hrs
      rfl
  | cons c cats ih =>
      intro rs hnd hcov
      rcases List.nodup_cons.mp hnd with ⟨hc, hnd2⟩
      have hmap : cats.map (fun cc => amountSum (catFilter cc rs))
          = cats.map (fun cc =>
              amountSum (catFilter cc (rs.filter (fun r => !(decide (r.category = c)))))) := by
        apply List.map_congr_left
        intro cc hcc
        have hne : cc ≠ c := by
          intro he
          subst he
          exact hc hcc
        rw [catFilter_filter_ne hne rs]
      have hcov2 : ∀ r ∈ rs.filter (fun r => !(decide (r.category = c))), r.category ∈ cats := by
        intro r hr
        rcases List.mem_filter.mp hr with ⟨hr1, hr2⟩
        rcases List.mem_cons.mp (hcov r hr1) with h1 | h2
        · exfalso
          simp [h1] at hr2
        · exact h2
      rw [List.map_cons, List.sum_cons, hmap, ih _ hnd2 hcov2]
      exact amountSum_filter_add (fun r => decide (r.category = c)) rs

/-! ### Lemmas about the update and delete operations -/

/-- The store after a successful `edit_expense`, written as one map over the
rows: a matching row gets exactly the supplied fields overwritten
(`Option.getD`: a supplied value — even the empty string — is written, an
absent one keeps the old value), every other row is kept as is.  This holds
in the no-field case too, where the map is the identity. -/
theorem edit_store_eq (s : Store) (sub d : String) (a : Option Rat)
    (c n : Option String) :
    (edit_expense none s sub d a c n).1
      = { s with rows := s.rows.map (fun r =>
            if matchKey d sub r then
              { r with amount := a.getD r.amount, category := c.getD r.category,
                       note := n.getD r.note }
            else r) } := by
  by_cases hone : (a.isNone && c.isNone && n.isNone) = true
  · have hmap : (fun r : ExpenseRecord =>
        if matchKey d sub r then
          { r with amount := a.getD r.amount, category := c.getD r.category,
                   note := n.getD r.note }
        else r) = fun r => r := by
      rcases Bool.and_eq_true_iff.mp hone with ⟨hone2, hn⟩
      rcases Bool.and_eq_true_iff.mp hone2 with ⟨ha, hc⟩
      rw [Option.isNone_iff_eq_none] at ha hc hn
      subst ha
      subst hc
      subst hn
      funext r
      simp
    rw [hmap]
    simp only [edit_expense, hone, if_true]
    simp
  · simp only [edit_expense, hone, if_false]
    rfl

/-- A successful `edit_expense` with at least one field supplied reports the
number of rows matched by the `(date, subcategory)` key. -/
theorem edit_result_eq (s : Store) (sub d : String) (a : Option Rat)
    (c n : Option String) (h : (a.isNone && c.isNone && n.isNone) = false) :
    (edit_expense none s sub d a c n).2
      = Response.okRows ((s.rows.filter (fun r => matchKey d sub r)).length) := by
  simp only [edit_expense, h, if_false]
  rfl

/-- The successful `delete_expense` keeps exactly the rows not matching the
key and reports how many rows matched. -/
theorem delete_eq (s : Store) (d sub : String) :
    delete_expense none s d sub
      = ({ s with rows := s.rows.filter (fun r => !(matchKey d sub r)) },
         Response.okRows ((s.rows.filter (fun r => matchKey d sub r)).length)) := rfl

theorem length_filter_partition {α : Type} (p : α → Bool) (l : List α) :
    (l.filter (fun x => !(p x))).length + (l.filter p).length = l.length := by
  induction l with
  | nil => rfl
  | cons x xs ih =>
      cases hx : p x <;> simp [List.filter_cons, hx] <;> omega

/-! ### The reachable-state invariant -/

theorem goodStore_init : GoodStore initStore :=
  ⟨List.Pairwise.nil, fun r hr => absurd hr (List.not_mem_nil r)⟩

/-- Editing never changes the id, date or subcategory of any row, and keeps
the row count: mapping each row to that triple commutes with the update. -/
theorem edit_rows_key_map (err : Option String) (s : Store) (sub d : String)
    (a : Option Rat) (c n : Option String) :
    ((edit_expense err s sub d a c n).1).rows.map (fun r => (r.id, r.date, r.subcategory))
      = s.rows.map (fun r => (r.id, r.date, r.subcategory)) := by
  cases err with
  | some m => rfl
  | none =>
      rw [edit_store_eq]
      simp only [List.map_map]
      apply List.map_congr_left
      intro r _
      by_cases hm : matchKey d sub r
      · simp [hm]
      · simp [hm]

theorem edit_rows_id_map (err : Option String) (s : Store) (sub d : String)
    (a : Option Rat) (c n : Option String) :
    ((edit_expense err s sub d a c n).1).rows.map (fun r => r.id)
      = s.rows.map (fun r => r.id) := by
  cases err with
  | some m => rfl
  | none =>
      rw [edit_store_eq]
      simp only [List.map_map]
      apply List.map_congr_left
      intro r _
      by_cases hm : matchKey d sub r
      · simp [hm]
      · simp [hm]

theorem edit_nextId (err : Option String) (s : Store) (sub d : String)
    (a : Option Rat) (c n : Option String) :
    ((edit_expense err s sub d a c n).1).nextId = s.nextId := by
  cases err with
  | some m => rfl
  | none =>
      rw [edit_store_eq]

theorem goodStore_applyOp {s : Store} (h : GoodStore s) (op : Op) :
    GoodStore (applyOp s op) := by
  obtain ⟨hpw, hlt⟩ := h
  cases op with
  | add err d amt c sub n =>
      cases err with
      | some m => exact ⟨hpw, hlt⟩
      | none =>
          have he : (applyOp s (Op.add none d amt c sub n)).rows
              = s.rows ++ [{ id := s.nextId, date := d, amount := amt, category := c,
                             subcategory := sub, note := n }] := rfl
          have hnx : (applyOp s (Op.add none d amt c sub n)).nextId = s.nextId + 1 := rfl
          constructor
          · rw [he, List.map_append]
            refine List.pairwise_append.mpr ⟨hpw, List.pairwise_singleton _ _, ?_⟩
            intro i hi j hj
            rcases List.mem_map.mp hi with ⟨r, hr, hri⟩
            rcases List.mem_singleton.mp hj with rfl
            exact hri ▸ hlt r hr
          · intro r hr
            rw [he] at hr
            rw [hnx]
            rcases List.mem_append.mp hr with h1 | h2
            · exact Nat.lt_succ_of_lt (hlt r h1)
            · rcases List.mem_singleton.mp h2 with rfl
              exact Nat.lt_succ_self _
  | list err a b => cases err <;> exact ⟨hpw, hlt⟩
  | summ err a b c => cases err <;> exact ⟨hpw, hlt⟩
  | edit err sub d a c n =>
      constructor
      · rw [show (applyOp s (Op.edit err sub d a c n)) = (edit_expense err s sub d a c n).1
              from rfl,
            edit_rows_id_map]
        exact hpw
      · intro r hr
        rw [show (applyOp s (Op.edit err sub d a c n)) = (edit_expense err s sub d a c n).1
              from rfl] at hr ⊢
        rw [edit_nextId]
        have hmem : r.id ∈ ((edit_expense err s sub d a c n).1).rows.map (fun r => r.id) :=
          List.mem_map.mpr ⟨r, hr, rfl⟩
        rw [edit_rows_id_map] at hmem
        rcases List.mem_map.mp hmem with ⟨r2, hr2, hid⟩
        rw [← hid]
        exact hlt r2 hr2
  | del err d sub =>
      cases err with
      | some m => exact ⟨hpw, hlt⟩
      | none =>
          constructor
          · exact List.Pairwise.sublist
              (List.Sublist.map (fun r => r.id) (List.filter_sublist s.rows)) hpw
          · intro r hr
            exact hlt r (List.mem_of_mem_filter hr)

theorem goodStore_runOps (ops : List Op) : GoodStore (runOps ops) := by
  suffices h : ∀ s, GoodStore s → GoodStore (List.foldl applyOp s ops) from
    h initStore goodStore_init
  induction ops with
  | nil =>
      intro s hs
      exact hs
  | cons op ops ih =>
      intro s hs
      exact ih _ (goodStore_applyOp hs op)

/-! ### The claims -/

/-- C1: for every store state and every pair of date strings, `list_expenses`
returns exactly the stored records whose date satisfies
`start_date ≤ date ≤ end_date` under lexicographic string comparison
(inclusive at both ends), ordered by ascending id and with every stored field
preserved verbatim (membership is of the whole record); inserting a record
and then listing a range covering its date returns that record. -/
theorem list_range_spec (s : Store) (a b : String) :
    list_expenses none s a b = (s, Response.rows (listedRows s a b)) ∧
    (listedRows s a b).Perm (rangeRows s a b) ∧
    (listedRows s a b).Pairwise idLe ∧
    (∀ r : ExpenseRecord, r ∈ listedRows s a b ↔ r ∈ s.rows ∧ a ≤ r.date ∧ r.date ≤ b) ∧
    (∀ (d : String) (amt : Rat) (c sub nt : String), a ≤ d → d ≤ b →
        ({ id := s.nextId, date := d, amount := amt, category := c,
           subcategory := sub, note := nt } : ExpenseRecord)
          ∈ listedRows (add_expense none s d amt c sub nt).1 a b) := by
  refine ⟨rfl, listedRows_perm s a b, listedRows_pairwise s a b,
    fun r => mem_listedRows, ?_⟩
  intro d amt c sub nt h1 h2
  rw [mem_listedRows]
  exact ⟨List.mem_append_right s.rows (List.mem_singleton_self _), h1, h2⟩

/-- C4: a successful `edit_expense` rewrites exactly the matching rows, and
on a matching row writes exactly the supplied optional fields
(`Option.getD`: `some v` — including `some ""` — is written, `none` keeps
the stored value); non-matching rows, the record count, and the unsupplied
fields (together with id, date and subcategory) are untouched. -/
theorem edit_partial_update_spec (s : Store) (sub d : String) (a : Option Rat)
    (c n : Option String) :
    (edit_expense none s sub d a c n).1.rows
      = s.rows.map (fun r =>
          if matchKey d sub r then
            { r with amount := a.getD r.amount, category := c.getD r.category,
                     note := n.getD r.note }
          else r) ∧
    (edit_expense none s sub d a c n).1.rows.length = s.rows.length ∧
    (∀ (i : Nat) (r : ExpenseRecord), s.rows[i]? = some r →
        (matchKey d sub r = false →
            (edit_expense none s sub d a c n).1.rows[i]? = some r) ∧
        (matchKey d sub r = true →
            (edit_expense none s sub d a c n).1.rows[i]?
              = some { r with amount := a.getD r.amount, category := c.getD r.category,
                              note := n.getD r.note })) := by
  have he := edit_store_eq s sub d a c n
  refine ⟨by rw [he], by rw [he]; exact List.length_map s.rows _, ?_⟩
  intro i r hir
  have hmap : (edit_expense none s sub d a c n).1.rows[i]?
      = Option.map (fun r =>
          if matchKey d sub r then
            { r with amount := a.getD r.amount, category := c.getD r.category,
                     note := n.getD r.note }
          else r) s.rows[i]? := by
    rw [he]
    exact List.getElem?_map _ s.rows i
  constructor
  · intro hm
    rw [hmap, hir]
    simp [hm]
  · intro hm
    rw [hmap, hir]
    simp [hm]

/-- C5: `edit_expense` with no optional field supplied performs no write and
returns the distinct `{"status": "no changes"}` response; with at least one
field supplied it returns the count of rows matched by the key, which is 0
when nothing matched. -/
theorem edit_no_changes_spec (s : Store) (sub d : String) :
    edit_expense none s sub d none none none = (s, Response.noChanges) ∧
    (∀ (a : Option Rat) (c n : Option String),
        (a.isSome || c.isSome || n.isSome) = true →
          (edit_expense none s sub d a c n).2
            = Response.okRows ((s.rows.filter (fun r => matchKey d sub r)).length)) ∧
    (∀ (a : Option Rat) (c n : Option String),
        (a.isSome || c.isSome || n.isSome) = true →
        (∀ r ∈ s.rows, matchKey d sub r = false) →
          (edit_expense none s sub d a c n).2 = Response.okRows 0) := by
  have hsup : ∀ (a : Option Rat) (c n : Option String),
      (a.isSome || c.isSome || n.isSome) = true →
      (a.isNone && c.isNone && n.isNone) = false := by
    intro a c n h
    cases a <;> cases c <;> cases n <;> simp_all
  refine ⟨rfl, ?_, ?_⟩
  · intro a c n h
    exact edit_result_eq s sub d a c n (hsup a c n h)
  · intro a c n h hnone
    rw [edit_result_eq s sub d a c n (hsup a c n h)]
    have hnil : s.rows.filter (fun r => matchKey d sub r) = [] := by
      rw [List.filter_eq_nil_iff]
      intro r hr
      simp [hnone r hr]
    rw [hnil]
    rfl

/-- C6: `delete_expense` removes exactly the records whose date and
subcategory both equal the given pair, leaves every other record unchanged
and in order, and returns a count equal to the number of removed records —
0, not an error, when nothing matched. -/
theorem delete_spec (s : Store) (d sub : String) :
    (delete_expense none s d sub).1.rows
        = s.rows.filter (fun r => !(matchKey d sub r)) ∧
    (delete_expense none s d sub).2
        = Response.okRows ((s.rows.filter (fun r => matchKey d sub r)).length) ∧
    (∀ r ∈ (delete_expense none s d sub).1.rows, matchKey d sub r = false) ∧
    (∀ r ∈ s.rows, matchKey d sub r = false → r ∈ (delete_expense none s d sub).1.rows) ∧
    ((delete_expense none s d sub).1.rows).Sublist s.rows ∧
    ((delete_expense none s d sub).1.rows.length
        + (s.rows.filter (fun r => matchKey d sub r)).length = s.rows.length) ∧
    ((∀ r ∈ s.rows, matchKey d sub r = false) →
        (delete_expense none s d sub).2 = Response.okRows 0) := by
  refine ⟨rfl, rfl, ?_, ?_, List.filter_sublist s.rows,
    length_filter_partition (fun r => matchKey d sub r) s.rows, ?_⟩
  · intro r hr
    have := (List.mem_filter.mp hr).2
    simpa using this
  · intro r hr hm
    exact List.mem_filter.mpr ⟨hr, by simp [hm]⟩
  · intro hnone
    have hnil : s.rows.filter (fun r => matchKey d sub r) = [] := by
      rw [List.filter_eq_nil_iff]
      intro r hr
      simp [hnone r hr]
    show Response.okRows ((s.rows.filter (fun r => matchKey d sub r)).length) = _
    rw [hnil]
    rfl

/-- C7: when the storage layer fails (modelled by the `err` input), every one
of the five operations catches the failure at its boundary and returns the
structured `{status: "error", message}` shape with the store unchanged (no
partially written state); a response is the error shape exactly when its
status field is `"error"` (success shapes carry `"ok"`, `"no changes"`, or —
for the bare row lists — no status field at all, never `"error"`). -/
theorem failure_boundary_spec (s : Store) (m : String) :
    (∀ (d : String) (amt : Rat) (c sub nt : String),
        add_expense (some m) s d amt c sub nt = (s, Response.error m)) ∧
    (∀ a b : String,
        list_expenses (some m) s a b
          = (s, Response.error ("Error listing expenses: " ++ m))) ∧
    (∀ (sub d : String) (a : Option Rat) (c n : Option String),
        edit_expense (some m) s sub d a c n = (s, Response.error m)) ∧
    (∀ d sub : String, delete_expense (some m) s d sub = (s, Response.error m)) ∧
    (∀ (a b : String) (c : Option String),
        summarize (some m) s a b c
          = (s, Response.error ("Error summarizing expenses: " ++ m))) ∧
    (∀ r : Response, isError r = true ↔ statusOf r = some "error") ∧
    statusOf (Response.error m) = some "error" := by
  refine ⟨fun d amt c sub nt => rfl, fun a b => rfl, fun sub d a c n => rfl,
    fun d sub => rfl, fun a b c => rfl, ?_, rfl⟩
  intro r
  cases r <;> simp [isError, statusOf]

/-- C9 counterexample: inserting with empty date and empty category succeeds
with status "ok" and stores a record whose date and category are the empty
string — the store performs no non-emptiness validation. -/
theorem add_empty_category_stored :
    (add_expense none initStore "" 5 "" "" "").1.rows
        = [{ id := 1, date := "", amount := 5, category := "", subcategory := "", note := "" }] ∧
    statusOf (add_expense none initStore "" 5 "" "" "").2 = some "ok" ∧
    ({ id := 1, date := "", amount := 5, category := "", subcategory := "",
       note := "" } : ExpenseRecord).category = "" :=
  ⟨rfl, rfl, rfl⟩

/-- C9 amended: `add_expense` does not validate its inputs: date and
category are stored verbatim — the empty string included — and the call
reports success, so a reachable store may hold records with empty date or
category. -/
theorem add_expense_no_validation (s : Store) (d : String) (amt : Rat)
    (c sub nt : String) :
    add_expense none s d amt c sub nt
      = ({ rows := s.rows ++ [{ id := s.nextId, date := d, amount := amt, category := c,
                                subcategory := sub, note := nt }],
           nextId := s.nextId + 1 },
         Response.okId s.nextId "Expense added successfully") ∧
    statusOf (add_expense none s d amt c sub nt).2 = some "ok" :=
  ⟨rfl, rfl⟩

/-- C10: `edit_expense` never changes the id, the date or the subcategory of
any stored record (whatever fields are supplied, and also on the failure
path), and never changes the number of records: the `(date, subcategory)`
lookup key of a record is immutable through edit. -/
theorem edit_immutable_key_spec (err : Option String) (s : Store) (sub d : String)
    (a : Option Rat) (c n : Option String) :
    ((edit_expense err s sub d a c n).1).rows.map (fun r => (r.id, r.date, r.subcategory))
      = s.rows.map (fun r => (r.id, r.date, r.subcategory)) ∧
    ((edit_expense err s sub d a c n).1).rows.length = s.rows.length := by
  refine ⟨edit_rows_key_map err s sub d a c n, ?_⟩
  have h := congrArg List.length (edit_rows_key_map err s sub d a c n)
  simpa using h

/-- C2: each per-category total reported by `summarize` equals the sum of
`amount` over exactly the records `list_expenses` would return for the same
range restricted to that row's category, and the sum of all per-category
totals equals the sum of all matching records' amounts (the same
truthiness-based category restriction the code applies). -/
theorem summarize_totals_spec (s : Store) (a b : String) (catOpt : Option String) :
    summarize none s a b catOpt = (s, Response.summary (summaryEntries s a b catOpt)) ∧
    list_expenses none s a b = (s, Response.rows (listedRows s a b)) ∧
    (∀ p ∈ summaryEntries s a b catOpt,
        p.2 = amountSum (catFilter p.1 (listedRows s a b))) ∧
    ((summaryEntries s a b catOpt).map (fun p => p.2)).sum
        = amountSum (truthyCatFilter catOpt (listedRows s a b)) := by
  have hperm : (listedRows s a b).Perm (rangeRows s a b) := listedRows_perm s a b
  have hmatched : ∀ c : String,
      amountSum (catFilter c (listedRows s a b))
        = amountSum (catFilter c (rangeRows s a b)) :=
    fun c => amountSum_perm (catFilter_perm hperm)
  refine ⟨rfl, rfl, ?_, ?_⟩
  · intro p hp
    rcases List.mem_map.mp hp with ⟨cc, hcc, hpe⟩
    subst hpe
    show amountSum (catFilter cc (summarizeMatched s a b catOpt))
        = amountSum (catFilter cc (listedRows s a b))
    rw [hmatched cc]
    cases catOpt with
    | none => rfl
    | some c0 =>
        by_cases h0 : c0 = ""
        · subst h0
          have hsm : summarizeMatched s a b (some "") = rangeRows s a b := by
            simp [summarizeMatched, truthyCatFilter]
          rw [hsm]
        · have hsm : summarizeMatched s a b (some c0) = catFilter c0 (rangeRows s a b) := by
            simp [summarizeMatched, truthyCatFilter, h0]
          have hcc2 : cc ∈ (summarizeMatched s a b (some c0)).map (fun r => r.category) :=
            mem_sortedCats.mp hcc
          rcases List.mem_map.mp hcc2 with ⟨r, hr, hrc⟩
          rw [hsm] at hr
          have hrcat : r.category = c0 := (mem_catFilter.mp hr).2
          have hc0 : cc = c0 := by
            rw [← hrc, hrcat]
          subst hc0
          rw [hsm, catFilter_catFilter]
  · have h1 : ((summaryEntries s a b catOpt).map (fun p => p.2))
        = (sortedCats ((summarizeMatched s a b catOpt).map (fun r => r.category))).map
            (fun c => amountSum (catFilter c (summarizeMatched s a b catOpt))) := by
      simp [summaryEntries, List.map_map]
    have h2 := sum_over_cats
      (sortedCats ((summarizeMatched s a b catOpt).map (fun r => r.category)))
      (summarizeMatched s a b catOpt) (nodup_sortedCats _)
      (fun r hr => mem_sortedCats.mpr (List.mem_map_of_mem _ hr))
    rw [h1, h2]
    cases catOpt with
    | none => exact amountSum_perm hperm.symm
    | some c0 =>
        by_cases h0 : c0 = ""
        · subst h0
          have e1 : summarizeMatched s a b (some "") = rangeRows s a b := by
            simp [summarizeMatched, truthyCatFilter]
          have e2 : truthyCatFilter (some "") (listedRows s a b) = listedRows s a b := by
            simp [truthyCatFilter]
          rw [e1, e2]
          exact amountSum_perm hperm.symm
        · have e1 : summarizeMatched s a b (some c0) = catFilter c0 (rangeRows s a b) := by
            simp [summarizeMatched, truthyCatFilter, h0]
          have e2 : truthyCatFilter (some c0) (listedRows s a b)
              = catFilter c0 (listedRows s a b) := by
            simp [truthyCatFilter, h0]
          rw [e1, e2]
          exact (amountSum_perm (catFilter_perm hperm)).symm

/-- C3 counterexample: in a reachable store holding a "food" and a
"transport" record inside the range, calling `summarize` with the explicitly
supplied empty-string category does NOT restrict to records whose category
equals the supplied value: it returns both categories (two rows, neither
equal to ""), because Python's `if category:` treats "" as absent. -/
theorem summarize_empty_category_counterexample :
    (summarize none twoCatStore "2024-01-01" "2024-01-31" (some "")).2
      = Response.summary (summaryEntries twoCatStore "2024-01-01" "2024-01-31" (some "")) ∧
    (summaryEntries twoCatStore "2024-01-01" "2024-01-31" (some "")).map (fun p => p.1)
      = ["food", "transport"] ∧
    (summaryEntries twoCatStore "2024-01-01" "2024-01-31" (some "")).length = 2 ∧
    ¬((2 : Nat) ≤ 1) ∧
    "food" ≠ "" ∧ "transport" ≠ "" := by
  have hstore : twoCatStore = { rows := [cexFood, cexTransport], nextId := 3 } := by
    decide
  have hin1 : inRange "2024-01-01" "2024-01-31" "2024-01-01" = true := by
    simp [inRange]
    decide
  have hin2 : inRange "2024-01-01" "2024-01-31" "2024-01-02" = true := by
    simp [inRange]
    decide
  have hlt : ("food" : String) < "transport" := by
    simp
    decide
  have hrows : rangeRows twoCatStore "2024-01-01" "2024-01-31" = [cexFood, cexTransport] := by
    rw [hstore]
    simp [rangeRows, List.filter, cexFood, cexTransport, hin1, hin2]
  have hmatched : summarizeMatched twoCatStore "2024-01-01" "2024-01-31" (some "")
      = [cexFood, cexTransport] := by
    simp [summarizeMatched, truthyCatFilter, hrows]
  have hcats : sortedCats (([cexFood, cexTransport]).map (fun r => r.category))
      = ["food", "transport"] := by
    simp [cexFood, cexTransport, sortedCats, insertCat, hlt]
  have he : summaryEntries twoCatStore "2024-01-01" "2024-01-31" (some "")
      = (sortedCats (([cexFood, cexTransport]).map (fun r => r.category))).map
          (fun c => (c, amountSum (catFilter c [cexFood, cexTransport]))) := by
    simp only [summaryEntries, hmatched]
  refine ⟨rfl, ?_, ?_, by decide, by decide, by decide⟩
  · rw [he, hcats]
    simp
  · rw [he, hcats]
    simp

/-- C3 amended: a supplied NON-EMPTY category restricts the aggregation to
records of exactly that category, so the result has at most one row; a
supplied empty string behaves exactly like an absent category (Python
truthiness), in which case rows are one per distinct category present in the
range, ordered by ascending lexicographic category. -/
theorem summarize_category_restriction_spec (s : Store) (a b : String) :
    (∀ catOpt : Option String,
        summarize none s a b catOpt = (s, Response.summary (summaryEntries s a b catOpt))) ∧
    (∀ c : String, c ≠ "" →
        (∀ p ∈ summaryEntries s a b (some c), p.1 = c) ∧
        (summaryEntries s a b (some c)).length ≤ 1) ∧
    summarize none s a b (some "") = summarize none s a b none ∧
    ((summaryEntries s a b none).map (fun p => p.1)).Pairwise (fun x y => x < y) ∧
    (∀ c : String,
        c ∈ (summaryEntries s a b none).map (fun p => p.1)
          ↔ c ∈ (rangeRows s a b).map (fun r => r.category)) := by
  have hfst : (summaryEntries s a b none).map (fun p => p.1)
      = sortedCats ((rangeRows s a b).map (fun r => r.category)) := by
    simp only [summaryEntries, summarizeMatched, truthyCatFilter, List.map_map]
    exact List.map_id' _
  refine ⟨fun catOpt => rfl, ?_, ?_, ?_, ?_⟩
  · intro c hc
    have hsm : summarizeMatched s a b (some c) = catFilter c (rangeRows s a b) := by
      simp [summarizeMatched, truthyCatFilter, hc]
    constructor
    · intro p hp
      rcases List.mem_map.mp hp with ⟨cc, hcc, hpe⟩
      subst hpe
      show cc = c
      rcases List.mem_map.mp (mem_sortedCats.mp hcc) with ⟨r, hr, hrc⟩
      rw [hsm] at hr
      rw [← hrc]
      exact (mem_catFilter.mp hr).2
    · have hlen : (summaryEntries s a b (some c)).length
          = (sortedCats ((summarizeMatched s a b (some c)).map (fun r => r.category))).length := by
        simp [summaryEntries]
      rw [hlen]
      apply nodup_const_length_le_one (nodup_sortedCats _) c
      intro x hx
      rcases List.mem_map.mp (mem_sortedCats.mp hx) with ⟨r, hr, hrx⟩
      rw [hsm] at hr
      rw [← hrx]
      exact (mem_catFilter.mp hr).2
  · have hm : summarizeMatched s a b (some "") = summarizeMatched s a b none := by
      simp [summarizeMatched, truthyCatFilter]
    have he : summaryEntries s a b (some "") = summaryEntries s a b none := by
      simp [summaryEntries, hm]
    show (s, Response.summary (summaryEntries s a b (some "")))
        = (s, Response.summary (summaryEntries s a b none))
    rw [he]
  · rw [hfst]
    exact pairwise_sortedCats _
  · intro c
    rw [hfst, mem_sortedCats]

/-- C8: in every store reachable from the fresh database by the five
operations, ids strictly increase along the table (so each stored record's
id is unique), every id is below the next AUTOINCREMENT value; insert
appends one record carrying exactly that fresh value (never already in use)
with all fields — subcategory and note included — stored as given strings
(never null: the model's fields are total), edit changes no id, and delete
only removes ids, never alters one. -/
theorem stored_ids_spec (ops : List Op) :
    ((runOps ops).rows.map (fun r => r.id)).Pairwise (fun i j => i < j) ∧
    ((runOps ops).rows.map (fun r => r.id)).Nodup ∧
    (∀ r ∈ (runOps ops).rows, r.id < (runOps ops).nextId) ∧
    (runOps ops).nextId ∉ (runOps ops).rows.map (fun r => r.id) ∧
    (∀ (d : String) (amt : Rat) (c sub nt : String),
        (applyOp (runOps ops) (Op.add none d amt c sub nt)).rows
          = (runOps ops).rows
              ++ [{ id := (runOps ops).nextId, date := d, amount := amt, category := c,
                    subcategory := sub, note := nt }] ∧
        (applyOp (runOps ops) (Op.add none d amt c sub nt)).nextId
          = (runOps ops).nextId + 1) ∧
    (∀ (err : Option String) (sub d : String) (a : Option Rat) (c n : Option String),
        (applyOp (runOps ops) (Op.edit err sub d a c n)).rows.map (fun r => r.id)
          = (runOps ops).rows.map (fun r => r.id)) ∧
    (∀ (err : Option String) (d sub : String),
        ((applyOp (runOps ops) (Op.del err d sub)).rows.map (fun r => r.id)).Sublist
          ((runOps ops).rows.map (fun r => r.id))) := by
  obtain ⟨hpw, hlt⟩ := goodStore_runOps ops
  refine ⟨hpw, hpw.imp (fun h => Nat.ne_of_lt h), hlt, ?_,
    fun d amt c sub nt => ⟨rfl, rfl⟩,
    fun err sub d a c n => edit_rows_id_map err (runOps ops) sub d a c n, ?_⟩
  · intro hmem
    rcases List.mem_map.mp hmem with ⟨r, hr, hid⟩
    have hlt2 := hlt r hr
    rw [hid] at hlt2
    exact absurd hlt2 (lt_irrefl _)
  · intro err d sub
    cases err with
    | some m => exact List.Sublist.refl _
    | none => exact List.Sublist.map _ (List.filter_sublist _)

end ExpenseTracker
